import Mathlib

/-!
Shallow embedding of the race-solana settlement program (settle.rs,
recipient_claim.rs, misc.rs, state/players.rs and the state types they use),
with theorems checking the specification's claims against it.

Machine integers are modelled as `Nat` with explicit wrapping (`% 2^64`,
`% 2^16`) exactly where the Rust release build wraps.  Fallible Rust code
(slice indexing panics, `?`-propagated errors, SPL/system-program failures)
is modelled with `Except`.  Solana account contents are explicit values;
an `Except.error` result models the runtime discarding all buffer writes.
-/

set_option maxRecDepth 8000

namespace Race

/-- Solana public keys, abstracted to their identity. -/
abbrev Pubkey := Nat

/-- 2^64, the wrap modulus of `u64`. -/
def U64MOD : Nat := 2 ^ 64

/-- 2^16, the wrap modulus of `u16`. -/
def U16MOD : Nat := 2 ^ 16

/-- Wrapping `u64` addition (release-mode `+`). -/
def wadd64 (a b : Nat) : Nat := (a + b) % U64MOD

/-- Wrapping `u64` multiplication (release-mode `*`). -/
def wmul64 (a b : Nat) : Nat := (a * b) % U64MOD

/-- Wrapping `u64` subtraction (release-mode `-`), for operands below 2^64. -/
def wsub64 (a b : Nat) : Nat := (U64MOD + a % U64MOD - b % U64MOD) % U64MOD

/-- `Iterator::sum::<u64>()`: left fold with wrapping addition. -/
def sum64 (l : List Nat) : Nat := l.foldl wadd64 0

/-- `Iterator::sum::<u16>()`: left fold with wrapping `u16` addition. -/
def sum16 (l : List Nat) : Nat := l.foldl (fun a b => (a + b) % U16MOD) 0

/-- Little-endian byte encoding on `k` bytes (borsh fixed-width integers). -/
def leBytes : Nat → Nat → List Nat
  | 0, _ => []
  | k + 1, v => v % 256 :: leBytes k (v / 256)

/-- Little-endian byte decoding. -/
def leVal (bs : List Nat) : Nat := bs.foldr (fun b acc => b + 256 * acc) 0

/-- `&data[start..start+len]`: `some` slice, or `none` when the range is out of
bounds (a Rust panic). -/
def listSlice (data : List Nat) (start len : Nat) : Option (List Nat) :=
  if start + len ≤ data.length then some ((data.drop start).take len) else none

/-- Write `bs` over `data[start..start+bs.length]`; `none` when out of bounds. -/
def writeBytes (data : List Nat) (start : Nat) (bs : List Nat) : Option (List Nat) :=
  if start + bs.length ≤ data.length then
    some (data.take start ++ bs ++ data.drop (start + bs.length))
  else none

/-- Typed errors of the program (`ProcessError` variants reachable from the
embedded code). -/
inductive ProcErr where
  | InvalidStakeAccount
  | InvalidPDA
  | InvalidReceiverAddress
  | InvalidSlotId
  | InvalidSlotStakeAccount
  | InvalidSettleVersion
  | InvalidNextSettleVersion
  | InvalidAwardIdentifier
  | InvalidAwardPlayerId
  | InvalidSettleBalance
  | UnbalancedGameStake
  | MalformedPlayersRegAccount
  | CantDecreasePlayersRegAccountSize
  | InvalidRecipientSlotAccount
  deriving DecidableEq, Repr

/-- Runtime-level failures: generic `ProgramError`s, panics (slice out of
bounds, division by zero) and failures of invoked token/system programs. -/
inductive SErr where
  | Process (e : ProcErr)
  | MissingRequiredSignature
  | NotEnoughAccountKeys
  | InvalidAccountData
  | IndexOutOfBounds
  | DivideByZero
  | SplInsufficientFunds
  | SplMintMismatch
  | SplCloseNonZero
  | SystemInsufficientFunds
  deriving DecidableEq, Repr

/-- `e.bind k = .ok b` destructured. -/
theorem except_bind_ok {ε α β : Type} {e : Except ε α} {k : α → Except ε β} {b : β} :
    e.bind k = .ok b ↔ ∃ a, e = .ok a ∧ k a = .ok b := by
  cases e <;> simp [Except.bind]

/-! ## state/players.rs: the compact player registry over a raw byte buffer -/

def VERSION_LEN : Nat := 8
def COUNT_LEN : Nat := 8
def PUBKEY_LEN : Nat := 32
def POSITION_FLAGS_LEN : Nat := 128
def PLAYER_INFO_LEN : Nat := 170
def PLAYER_INFO_WITHOUT_KEY_LEN : Nat := 42
def SLOTS_COUNT_LEN : Nat := 4
def POSITION_LEN : Nat := 2
/-- NB: in the source this constant (`PUBKEY_LEN` = 32) is also what the
bitmap accessors use as the bitmap base offset, not `POSITION_FLAGS_OFFSET`. -/
def POSITION_OFFSET : Nat := PUBKEY_LEN
def ID_OFFSET : Nat := PUBKEY_LEN + POSITION_LEN
def ID_LEN : Nat := 8
def ACCESS_VERSION_OFFSET : Nat := 0
def SETTLE_VERSION_OFFSET : Nat := ACCESS_VERSION_OFFSET + VERSION_LEN
def COUNT_OFFSET : Nat := SETTLE_VERSION_OFFSET + VERSION_LEN
def POSITION_FLAGS_OFFSET : Nat := COUNT_OFFSET + COUNT_LEN
def SLOTS_COUNT_OFFSET : Nat := POSITION_FLAGS_OFFSET + POSITION_FLAGS_LEN
def HEAD_LEN : Nat := SLOTS_COUNT_OFFSET + SLOTS_COUNT_LEN

/-- The 42-byte stack projection of a stored `PlayerJoin`. -/
structure PlayerJoinWithoutKey where
  addr : Pubkey
  position : Nat
  access_version : Nat
  deriving DecidableEq, Repr

/-- borsh `PlayerJoinWithoutKey::try_from_slice` on exactly 42 bytes
(32-byte pubkey, little-endian `u16`, little-endian `u64`; total deserialization
of a 42-byte slice never fails). -/
def decode_player (bs : List Nat) : PlayerJoinWithoutKey :=
  { addr := leVal (bs.take 32)
    position := leVal ((bs.drop 32).take 2)
    access_version := leVal ((bs.drop 34).take 8) }

/-- `set_versions`: write both version counters into the registry header. -/
def set_versions (data : List Nat) (access_version settle_version : Nat) :
    Except SErr (List Nat) :=
  match writeBytes data ACCESS_VERSION_OFFSET (leBytes 8 access_version) with
  | none => .error .IndexOutOfBounds
  | some d =>
    match writeBytes d SETTLE_VERSION_OFFSET (leBytes 8 settle_version) with
    | none => .error .IndexOutOfBounds
    | some d2 => .ok d2

/-- `get_players_count`: little-endian `usize` at `COUNT_OFFSET`. -/
def get_players_count (data : List Nat) : Except SErr Nat :=
  match listSlice data COUNT_OFFSET COUNT_LEN with
  | none => .error .IndexOutOfBounds
  | some bs => .ok (leVal bs)

/-- `decrease_players_count`: errors on underflow. -/
def decrease_players_count (data : List Nat) : Except SErr (Nat × List Nat) := do
  let size ← get_players_count data
  if size = 0 then
    .error (.Process .CantDecreasePlayersRegAccountSize)
  else
    match writeBytes data COUNT_OFFSET (leBytes 8 (size - 1)) with
    | none => .error .IndexOutOfBounds
    | some d => .ok (size - 1, d)

/-- The scan loop of `get_player_by_id`, from slot index `i` upward.  The loop
guard is `HEAD_LEN + PLAYER_INFO_LEN * i < data.len()`; the id comparison reads
`data[start+ID_OFFSET .. start+ID_OFFSET+ID_LEN]` (a panic if out of range). -/
def get_player_by_id_from (data idv : List Nat) (i : Nat) :
    Except SErr (Option (Nat × PlayerJoinWithoutKey)) :=
  if _h : HEAD_LEN + PLAYER_INFO_LEN * i < data.length then
    let start := HEAD_LEN + PLAYER_INFO_LEN * i
    match listSlice data (start + ID_OFFSET) ID_LEN with
    | none => .error .IndexOutOfBounds
    | some idslice =>
      if idv = idslice then
        match listSlice data start PLAYER_INFO_WITHOUT_KEY_LEN with
        | none => .error .IndexOutOfBounds
        | some bs => .ok (some (i, decode_player bs))
      else
        get_player_by_id_from data idv (i + 1)
  else
    .ok none
termination_by data.length - PLAYER_INFO_LEN * i
decreasing_by
  simp only [PLAYER_INFO_LEN, HEAD_LEN, SLOTS_COUNT_OFFSET, POSITION_FLAGS_OFFSET,
    COUNT_OFFSET, SETTLE_VERSION_OFFSET, ACCESS_VERSION_OFFSET, VERSION_LEN,
    COUNT_LEN, POSITION_FLAGS_LEN, SLOTS_COUNT_LEN] at *
  omega

/-- `get_player_by_id`: serialize the id to 8 little-endian bytes, scan slots. -/
def get_player_by_id (data : List Nat) (id : Nat) :
    Except SErr (Option (Nat × PlayerJoinWithoutKey)) :=
  get_player_by_id_from data (leBytes 8 id) 0

/-- `is_position_occupied`: one bit of the bitmap; positions above 1024 report
occupied without reading the buffer. -/
def is_position_occupied (data : List Nat) (position : Nat) : Except SErr Bool :=
  if data.length < HEAD_LEN then .error (.Process .MalformedPlayersRegAccount)
  else if position > 1024 then .ok true
  else
    let i := position / 8
    let o := position % 8
    let f := 2 ^ o
    match data.get? (POSITION_OFFSET + i) with
    | none => .error .IndexOutOfBounds
    | some b => .ok (decide (f &&& b ≠ 0))

/-- `set_position_flag`: set or clear one bit of the bitmap. -/
def set_position_flag (data : List Nat) (position : Nat) (flag : Bool) :
    Except SErr (List Nat) :=
  if data.length < HEAD_LEN then .error (.Process .MalformedPlayersRegAccount)
  else
    let i := position / 8
    let o := position % 8
    let f := 2 ^ o
    match data.get? (POSITION_OFFSET + i) with
    | none => .error .IndexOutOfBounds
    | some b =>
      .ok (data.set (POSITION_OFFSET + i) (if flag then b ||| f else b &&& (255 ^^^ f)))

/-- `remove_player_by_index`: zero the slot, clear its position bit, decrement
the count; a no-op when the slot's address bytes are already all zero. -/
def remove_player_by_index (data : List Nat) (index : Nat) : Except SErr (List Nat) :=
  let start := index * PLAYER_INFO_LEN + HEAD_LEN
  match listSlice data start PUBKEY_LEN with
  | none => .error .IndexOutOfBounds
  | some addrBytes =>
    if addrBytes ≠ List.replicate PUBKEY_LEN 0 then
      match listSlice data (start + POSITION_OFFSET) POSITION_LEN with
      | none => .error .IndexOutOfBounds
      | some posBytes =>
        match writeBytes data start (List.replicate PLAYER_INFO_LEN 0) with
        | none => .error .IndexOutOfBounds
        | some d1 => do
          let d2 ← set_position_flag d1 (leVal posBytes) false
          let (_, d3) ← decrease_players_count d2
          .ok d3
    else .ok data

/-! ## Ledger state types (state/game.rs, state/recipient.rs, types.rs) -/

inductive GameStatus where
  | Initializing | Initialized | Closed
  deriving DecidableEq, Repr

inductive EntryLock where
  | Open | JoinOnly | DepositOnly | Closed
  deriving DecidableEq, Repr

inductive EntryType where
  | Cash (min_deposit max_deposit : Nat)
  | Ticket (amount : Nat)
  | Gating (collection : String)
  deriving DecidableEq, Repr

structure PlayerBalance where
  player_id : Nat
  balance : Nat
  deriving DecidableEq, Repr

inductive DepositStatus where
  | Pending | Rejected | Refunded | Accepted
  deriving DecidableEq, Repr

structure PlayerDeposit where
  addr : Pubkey
  amount : Nat
  access_version : Nat
  settle_version : Nat
  status : DepositStatus
  deriving DecidableEq, Repr

structure Bonus where
  identifier : String
  stake_addr : Pubkey
  token_addr : Pubkey
  amount : Nat
  deriving DecidableEq, Repr

structure ServerJoin where
  addr : Pubkey
  endpoint : String
  access_version : Nat
  deriving DecidableEq, Repr

inductive VoteType where
  | ServerVoteTransactorDropOff
  | ClientVoteTransactorDropOff
  deriving DecidableEq, Repr

structure Vote where
  voter : Pubkey
  votee : Pubkey
  vote_type : VoteType
  deriving DecidableEq, Repr

/-- `GameState` (state/game.rs); opaque or unused-by-settlement fields kept
with simplified payload types. -/
structure GameState where
  game_status : GameStatus
  version : String
  title : String
  bundle_addr : Pubkey
  stake_account : Pubkey
  owner : Pubkey
  token_mint : Pubkey
  transactor_addr : Option Pubkey
  access_version : Nat
  settle_version : Nat
  max_players : Nat
  players_reg_account : Pubkey
  deposits : List PlayerDeposit
  servers : List ServerJoin
  data_len : Nat
  data : List Nat
  votes : List Vote
  unlock_time : Option Nat
  entry_type : EntryType
  recipient_addr : Pubkey
  checkpoint : List Nat
  entry_lock : EntryLock
  bonuses : List Bonus
  balances : List PlayerBalance
  deriving DecidableEq, Repr

inductive RecipientSlotType where
  | Token | Nft
  deriving DecidableEq, Repr

inductive RecipientSlotOwner where
  | Unassigned (identifier : String)
  | Assigned (addr : Pubkey)
  deriving DecidableEq, Repr

structure RecipientSlotShare where
  owner : RecipientSlotOwner
  weights : Nat
  claim_amount : Nat
  deriving DecidableEq, Repr

structure RecipientSlot where
  id : Nat
  slot_type : RecipientSlotType
  token_addr : Pubkey
  stake_addr : Pubkey
  shares : List RecipientSlotShare
  deriving DecidableEq, Repr

structure RecipientState where
  is_initialized : Bool
  cap_addr : Option Pubkey
  slots : List RecipientSlot
  deriving DecidableEq, Repr

inductive BalanceChange where
  | Add (amount : Nat)
  | Sub (amount : Nat)
  deriving DecidableEq, Repr

structure Settle where
  player_id : Nat
  amount : Nat
  change : Option BalanceChange
  eject : Bool
  deriving DecidableEq, Repr

structure Transfer where
  amount : Nat
  deriving DecidableEq, Repr

structure Award where
  player_id : Nat
  bonus_identifier : String
  deriving DecidableEq, Repr

structure SettleParams where
  settles : List Settle
  transfer : Option Transfer
  awards : List Award
  checkpoint : List Nat
  access_version : Nat
  settle_version : Nat
  next_settle_version : Nat
  entry_lock : Option EntryLock
  accept_deposits : List Nat
  deriving DecidableEq, Repr

/-! ## Accounts and external collaborators (misc.rs) -/

/-- The unpacked content of an SPL token account. -/
structure TokenAccount where
  mint : Pubkey
  amount : Nat
  deriving DecidableEq, Repr

/-- A Solana account as the settlement code observes it: its address, its
lamport balance, and — when it is a valid SPL token account — its unpacked
token state. -/
structure AccountModel where
  key : Pubkey
  lamports : Nat
  token : Option TokenAccount
  deriving DecidableEq, Repr

/-- External address derivations consumed by the program:
`get_associated_token_address` and `Pubkey::find_program_address` seeded by
the game account key. -/
structure Env where
  ata : Pubkey → Pubkey → Pubkey
  find_pda : Pubkey → Pubkey × Nat

/-- The distinguished native (wrapped-SOL) mint address
`So11111111111111111111111111111111111111112`, abstracted to a fixed key. -/
def NATIVE_MINT : Pubkey := 101

/-- `is_native_mint`. -/
def is_native_mint (mint : Pubkey) : Bool := mint = NATIVE_MINT

/-- `validate_receiver` (misc.rs).  For an SPL mint the receiver must be the
owner's associated token account, otherwise `InvalidReceiverAddress`.  For the
native mint the source only logs a `msg!` on mismatch and falls through to
`Ok(())` — no error is returned; that behaviour is modelled as written. -/
def validate_receiver (env : Env) (account_key mint receiver_key : Pubkey) :
    Except SErr Unit :=
  if is_native_mint mint then
    .ok ()
  else if receiver_key ≠ env.ata account_key mint then
    .error (.Process .InvalidReceiverAddress)
  else
    .ok ()

/-- `transfer_sol`: a system-program transfer of `amount` lamports (all of the
source's lamports when `amount` is `None`); fails when the source has too few. -/
def transfer_sol (source dest : AccountModel) (amount : Option Nat) :
    Except SErr (AccountModel × AccountModel) :=
  let amt := amount.getD source.lamports
  if amt > source.lamports then .error .SystemInsufficientFunds
  else
    .ok ({ source with lamports := source.lamports - amt },
         { dest with lamports := dest.lamports + amt })

/-- `transfer_spl` (misc.rs).  The source unpacks the **destination** account
into a variable named `source_state`: when `amount` is `None` the transferred
amount is the destination's current balance, and when the destination does not
unpack as a token account the transfer is silently skipped (`Ok(())`). -/
def transfer_spl (source dest : AccountModel) (amount : Option Nat) :
    Except SErr (AccountModel × AccountModel) :=
  match dest.token with
  | none => .ok (source, dest)
  | some destTok =>
    let amt := amount.getD destTok.amount
    match source.token with
    | none => .error .InvalidAccountData
    | some srcTok =>
      if srcTok.mint ≠ destTok.mint then .error .SplMintMismatch
      else if amt > srcTok.amount then .error .SplInsufficientFunds
      else
        .ok ({ source with token := some { srcTok with amount := srcTok.amount - amt } },
             { dest with token := some { destTok with amount := destTok.amount + amt } })

/-- `general_transfer`: dispatch on the mint between SOL and SPL transfers. -/
def general_transfer (source dest : AccountModel) (mint : Pubkey) (amount : Option Nat) :
    Except SErr (AccountModel × AccountModel) :=
  if is_native_mint mint then transfer_sol source dest amount
  else transfer_spl source dest amount

/-- `spl_token::instruction::close_account` on the account: succeeds only on a
token account whose balance is zero. -/
def close_token_account (acct : AccountModel) : Except SErr Unit :=
  match acct.token with
  | none => .error .InvalidAccountData
  | some t => if t.amount ≠ 0 then .error .SplCloseNonZero else .ok ()

/-! ## recipient_claim.rs: the weighted-claim engine -/

/-- The share loop of `claim_from_slot`: the first share `Assigned` to `owner`
receives `total_amount * weights / total_weights - claim_amount` (wrapping
`u64` arithmetic; a division by a zero `total_weights` is a Rust panic),
records it in `claim_amount`, and the loop returns; with no matching share the
result is 0 and the shares are unchanged. -/
def claim_loop (total_amount total_weights : Nat) (owner : Pubkey) :
    List RecipientSlotShare → Except SErr (Nat × List RecipientSlotShare)
  | [] => .ok (0, [])
  | share :: rest =>
    match share.owner with
    | .Assigned addr =>
      if addr = owner then
        if total_weights = 0 then .error .DivideByZero
        else
          let claim := wsub64 (wmul64 total_amount share.weights / total_weights)
            share.claim_amount
          .ok (claim, { share with claim_amount := wadd64 share.claim_amount claim } :: rest)
      else do
        let (c, rest') ← claim_loop total_amount total_weights owner rest
        .ok (c, share :: rest')
    | .Unassigned _ => do
      let (c, rest') ← claim_loop total_amount total_weights owner rest
      .ok (c, share :: rest')

/-- `claim_from_slot` (recipient_claim.rs): `total_weights` is the (wrapping)
`u16` sum of all weights, `total_amount` the (wrapping) `u64` sum of all
`claim_amount`s plus the slot's current stake. -/
def claim_from_slot (stake_amount : Nat) (slot : RecipientSlot) (owner : Pubkey) :
    Except SErr (Nat × RecipientSlot) := do
  let total_weights := sum16 (slot.shares.map (·.weights))
  let total_amount := wadd64 (sum64 (slot.shares.map (·.claim_amount))) stake_amount
  let (c, shares') ← claim_loop total_amount total_weights owner slot.shares
  .ok (c, { slot with shares := shares' })

/-! ## processor/settle.rs: the settlement processor -/

/-- Apply one settle's `change` to the balance list: mutate the first entry for
`pid` (wrapping add; `checked_sub` errors with `InvalidSettleBalance` on
underflow), create an entry on `Add` when absent, error on `Sub` when absent. -/
def apply_change_to_balances (bs : List PlayerBalance) (pid : Nat)
    (change : Option BalanceChange) : Except SErr (List PlayerBalance) :=
  match bs with
  | [] =>
    match change with
    | some (.Add x) => .ok [⟨pid, x⟩]
    | some (.Sub _) => .error (.Process .InvalidSettleBalance)
    | none => .ok []
  | b :: rest =>
    if b.player_id = pid then
      match change with
      | some (.Add x) => .ok ({ b with balance := wadd64 b.balance x } :: rest)
      | some (.Sub x) =>
        if x > b.balance then .error (.Process .InvalidSettleBalance)
        else .ok ({ b with balance := b.balance - x } :: rest)
      | none => .ok (b :: rest)
    else do
      let rest' ← apply_change_to_balances rest pid change
      .ok (b :: rest')

/-- One iteration of the settles loop of `handle_settles`: apply the balance
change, prune zero balances, then look the player up in the registry — when
found, queue a payout if `player_id != 0 && amount > 0` and remove the entry if
`eject`; when absent, nothing happens. -/
def settle_step (gs : GameState) (reg : List Nat) (pays : List (Pubkey × Nat))
    (s : Settle) : Except SErr (GameState × List Nat × List (Pubkey × Nat)) := do
  let balances ← apply_change_to_balances gs.balances s.player_id s.change
  let gs := { gs with balances := balances.filter (fun b => b.balance > 0) }
  match ← get_player_by_id reg s.player_id with
  | some (player_idx, player) =>
    let pays := if s.player_id ≠ 0 ∧ s.amount > 0
      then pays ++ [(player.addr, s.amount)] else pays
    if s.eject then do
      let reg ← remove_player_by_index reg player_idx
      .ok (gs, reg, pays)
    else
      .ok (gs, reg, pays)
  | none => .ok (gs, reg, pays)

/-- Pay one queued payout: take the next supplied account as receiver, validate
it against the player address and the game's mint, transfer from the stake
account. -/
def pay_one (env : Env) (gs : GameState) (stake : AccountModel)
    (iter : List AccountModel) (pay : Pubkey × Nat) :
    Except SErr (AccountModel × List AccountModel) :=
  match iter with
  | [] => .error .NotEnoughAccountKeys
  | receiver :: iter => do
    validate_receiver env pay.1 gs.token_mint receiver.key
    let (stake', _) ← general_transfer stake receiver gs.token_mint (some pay.2)
    .ok (stake', iter)

/-- `handle_settles`: the settles loop followed by the payout loop. -/
def handle_settles (env : Env) (gs : GameState) (reg : List Nat)
    (stake : AccountModel) (iter : List AccountModel) (settles : List Settle) :
    Except SErr (GameState × List Nat × AccountModel × List AccountModel) := do
  let (gs, reg, pays) ← settles.foldlM
    (fun (acc : GameState × List Nat × List (Pubkey × Nat)) s =>
      settle_step acc.1 acc.2.1 acc.2.2 s) (gs, reg, [])
  let (stake, iter) ← pays.foldlM
    (fun (acc : AccountModel × List AccountModel) p => pay_one env gs acc.1 acc.2 p)
    (stake, iter)
  .ok (gs, reg, stake, iter)

/-- `handle_transfer`: move the commission `transfer.amount` from the stake
account into the recipient slot whose token matches the game's mint; the next
supplied account must be that slot's stake account. -/
def handle_transfer (_env : Env) (gs : GameState) (t : Transfer)
    (recipient_state : RecipientState) (stake : AccountModel)
    (iter : List AccountModel) : Except SErr (AccountModel × List AccountModel) :=
  match iter with
  | [] => .error .NotEnoughAccountKeys
  | slot_stake :: iter =>
    match recipient_state.slots.find? (fun s => s.token_addr = gs.token_mint) with
    | some slot =>
      if slot_stake.key = slot.stake_addr then do
        let (stake', _) ← general_transfer stake slot_stake gs.token_mint (some t.amount)
        .ok (stake', iter)
      else .error (.Process .InvalidSlotStakeAccount)
    | none => .error (.Process .InvalidSlotId)

/-- `next_account_info`: take the next supplied account, or fail when the
iterator is exhausted. -/
def next_account (iter : List AccountModel) :
    Except SErr (AccountModel × List AccountModel) :=
  match iter with
  | [] => .error .NotEnoughAccountKeys
  | a :: rest => .ok (a, rest)

/-- One award applied to one matching bonus in `handle_bonuses`: take the bonus
and receiver accounts, check the bonus stake address, look the player up
(`InvalidAwardPlayerId` when absent), validate the receiver, transfer with
`amount = None`, then close the bonus account. -/
def award_bonus_step (env : Env) (reg : List Nat) (bonus : Bonus)
    (player_id : Nat) (iter : List AccountModel) : Except SErr (List AccountModel) := do
  let (bonus_account, iter) ← next_account iter
  let (receiver_account, iter) ← next_account iter
  if bonus.stake_addr ≠ bonus_account.key then
    .error (.Process .InvalidAwardIdentifier)
  else
    match ← get_player_by_id reg player_id with
    | none => .error (.Process .InvalidAwardPlayerId)
    | some (_, player) => do
      validate_receiver env player.addr bonus.token_addr receiver_account.key
      let (bonus_account', _) ←
        general_transfer bonus_account receiver_account bonus.token_addr none
      close_token_account bonus_account'
      .ok iter

/-- `handle_bonuses`: for each award, iterate over every bonus whose identifier
matches (non-matching bonuses are skipped without consuming accounts). -/
def handle_bonuses (env : Env) (gs : GameState) (reg : List Nat)
    (awards : List Award) (iter : List AccountModel) :
    Except SErr (List AccountModel) :=
  awards.foldlM
    (fun it (a : Award) =>
      (gs.bonuses.filter (fun b => b.identifier = a.bonus_identifier)).foldlM
        (fun it b => award_bonus_step env reg b a.player_id it) it)
    iter

/-- Whether a deposit still binds pooled funds:
`matches!(status, Pending | Rejected)`. -/
def deposit_unresolved (d : PlayerDeposit) : Bool :=
  match d.status with
  | .Pending => true
  | .Rejected => true
  | _ => false

/-- The accept-deposits loop of `process`: mark the first deposit carrying each
listed `access_version` as `Accepted`. -/
def mark_accepted (ds : List PlayerDeposit) (av : Nat) : List PlayerDeposit :=
  match ds with
  | [] => []
  | d :: rest =>
    if d.access_version = av then { d with status := .Accepted } :: rest
    else d :: mark_accepted rest av

/-- Accept the listed deposits then retain only `Pending`/`Rejected` rows. -/
def accept_and_retain (ds : List PlayerDeposit) (avs : List Nat) : List PlayerDeposit :=
  (avs.foldl mark_accepted ds).filter deposit_unresolved

/-- The live pooled amount read by `validate_balance`: the stake account's
lamports for the native mint, its unpacked SPL balance otherwise. -/
def observed_stake (gs : GameState) (stake : AccountModel) : Except SErr Nat :=
  if is_native_mint gs.token_mint then .ok stake.lamports
  else
    match stake.token with
    | none => .error .InvalidAccountData
    | some t => .ok t.amount

/-- `validate_balance` (settle.rs): the pooled amount must equal the (wrapping)
sum of balances plus the (wrapping) sum of unresolved deposit amounts, else
`UnbalancedGameStake`. -/
def validate_balance (gs : GameState) (stake : AccountModel) : Except SErr Unit := do
  let stake_amount ← observed_stake gs stake
  let balance_sum := sum64 (gs.balances.map (·.balance))
  let unhandled_deposit := sum64 ((gs.deposits.filter deposit_unresolved).map (·.amount))
  if ¬ (stake_amount = wadd64 balance_sum unhandled_deposit) then
    .error (.Process .UnbalancedGameStake)
  else
    .ok ()

/-- The `if let Some(transfer) = transfer { handle_transfer(..)? }` block of
`process`: no commission transfer when the parameter is absent. -/
def maybe_handle_transfer (env : Env) (gs : GameState) (transfer : Option Transfer)
    (recipient_state : RecipientState) (stake : AccountModel)
    (iter : List AccountModel) : Except SErr (AccountModel × List AccountModel) :=
  match transfer with
  | some t => handle_transfer env gs t recipient_state stake iter
  | none => .ok (stake, iter)

/-- The accounts supplied to a settle invocation, after the instruction layer
has deserialized the game and recipient states. -/
structure SettleAccounts where
  transactor_key : Pubkey
  transactor_is_signer : Bool
  game_key : Pubkey
  game_state : GameState
  reg : List Nat
  stake : AccountModel
  pda_key : Pubkey
  recipient_state : RecipientState
  rest : List AccountModel

/-- What a successful settle invocation commits: the packed game state, the
rewritten registry buffer, and the stake account as the transfers left it. -/
structure SettleResult where
  game_state : GameState
  reg : List Nat
  stake : AccountModel
  deriving DecidableEq, Repr

/-- The commit tail of `process` (after `handle_bonuses`): accept and retain
deposits, check the conservation invariant, bump `settle_version`, replace the
checkpoint, optionally update the entry lock, write the registry version
counters, and pack the final state. -/
def settle_commit (gs : GameState) (reg : List Nat) (stake : AccountModel)
    (params : SettleParams) : Except SErr SettleResult := do
  validate_balance
    { gs with deposits := accept_and_retain gs.deposits params.accept_deposits } stake
  let reg ← set_versions reg gs.access_version params.next_settle_version
  .ok ⟨{ gs with
      deposits := accept_and_retain gs.deposits params.accept_deposits
      settle_version := params.next_settle_version
      checkpoint := params.checkpoint
      entry_lock := params.entry_lock.getD gs.entry_lock }, reg, stake⟩

/-- `process` (settle.rs).  Signer check; settle-version checks; stake-account
identity; PDA check; `handle_settles`; optional `handle_transfer`;
`handle_bonuses`; accept + retain deposits; `validate_balance`; bump
`settle_version`, replace the checkpoint, optionally update the entry lock;
write the registry version counters; pack the state.  Any error discards
every mutation (no `SettleResult` is produced). -/
def settle_process (env : Env) (a : SettleAccounts) (params : SettleParams) :
    Except SErr SettleResult := do
  if ¬ a.transactor_is_signer then .error .MissingRequiredSignature else
  if a.game_state.settle_version ≠ params.settle_version then
    .error (.Process .InvalidSettleVersion) else
  if params.next_settle_version ≤ a.game_state.settle_version then
    .error (.Process .InvalidNextSettleVersion) else
  if a.stake.key ≠ a.game_state.stake_account then
    .error (.Process .InvalidStakeAccount) else
  if (env.find_pda a.game_key).1 ≠ a.pda_key then
    .error (.Process .InvalidPDA) else do
  let (gs, reg, stake, iter) ←
    handle_settles env a.game_state a.reg a.stake a.rest params.settles
  let (stake, _iter2) ←
    maybe_handle_transfer env gs params.transfer a.recipient_state stake iter
  let _iter3 ← handle_bonuses env gs reg params.awards _iter2
  settle_commit gs reg stake params

/-! ## Arithmetic bridge lemmas: wrapping operations agree with plain `Nat`
arithmetic below the moduli -/

theorem bind_ok_iff {ε α β : Type} {e : Except ε α} {k : α → Except ε β} {b : β} :
    (e >>= k) = .ok b ↔ ∃ a, e = .ok a ∧ k a = .ok b := by
  cases e <;> simp [Bind.bind, Except.bind]

theorem wadd64_eq {a b : Nat} (h : a + b < U64MOD) : wadd64 a b = a + b :=
  Nat.mod_eq_of_lt h

theorem wmul64_eq {a b : Nat} (h : a * b < U64MOD) : wmul64 a b = a * b :=
  Nat.mod_eq_of_lt h

theorem wsub64_eq {a b : Nat} (ha : a < U64MOD) (hb : b ≤ a) : wsub64 a b = a - b := by
  unfold wsub64
  rw [Nat.mod_eq_of_lt ha, Nat.mod_eq_of_lt (lt_of_le_of_lt hb ha),
    Nat.add_sub_assoc hb, Nat.add_mod_left]
  exact Nat.mod_eq_of_lt (lt_of_le_of_lt (Nat.sub_le a b) ha)

theorem foldl_modadd (m : Nat) (l : List Nat) (acc : Nat) (h : acc + l.sum < m) :
    l.foldl (fun a b => (a + b) % m) acc = acc + l.sum := by
  induction l generalizing acc with
  | nil => simp
  | cons x rest ih =>
    have hx : acc + x < m := by simp [List.sum_cons] at h; omega
    have : (acc + x) % m = acc + x := Nat.mod_eq_of_lt hx
    simp only [List.foldl_cons, this]
    rw [ih (acc + x) (by simp [List.sum_cons] at h ⊢; omega)]
    simp [List.sum_cons]; omega

theorem sum64_eq {l : List Nat} (h : l.sum < U64MOD) : sum64 l = l.sum := by
  simpa [sum64, wadd64] using foldl_modadd U64MOD l 0 (by simpa using h)

theorem sum16_eq {l : List Nat} (h : l.sum < U16MOD) : sum16 l = l.sum := by
  simpa [sum16] using foldl_modadd U16MOD l 0 (by simpa using h)

/-! ## Characterization of the claim loop -/

theorem claim_loop_no_match (T W : Nat) (owner : Pubkey)
    (shares : List RecipientSlotShare)
    (h : ∀ x ∈ shares, x.owner ≠ .Assigned owner) :
    claim_loop T W owner shares = .ok (0, shares) := by
  induction shares with
  | nil => rfl
  | cons share rest ih =>
    have hne := h share (List.mem_cons_self _ _)
    have hrest : ∀ x ∈ rest, x.owner ≠ .Assigned owner :=
      fun x hx => h x (List.mem_cons_of_mem _ hx)
    cases hshare : share.owner with
    | Assigned addr =>
      have haddr : ¬ addr = owner := by
        intro he; exact hne (by rw [hshare, he])
      simp [claim_loop, hshare, haddr, ih hrest, Bind.bind, Except.bind]
    | Unassigned s =>
      simp [claim_loop, hshare, ih hrest, Bind.bind, Except.bind]

/-- The payable computed for the first matching share, in wrapping arithmetic. -/
def loop_payable (T W : Nat) (s : RecipientSlotShare) : Nat :=
  wsub64 (wmul64 T s.weights / W) s.claim_amount

theorem claim_loop_found (T W : Nat) (owner : Pubkey)
    (pre post : List RecipientSlotShare) (s : RecipientSlotShare)
    (hpre : ∀ x ∈ pre, x.owner ≠ .Assigned owner)
    (hs : s.owner = .Assigned owner) (hW : W ≠ 0) :
    claim_loop T W owner (pre ++ s :: post) =
      .ok (loop_payable T W s,
        pre ++ { s with claim_amount := wadd64 s.claim_amount (loop_payable T W s) } :: post) := by
  induction pre with
  | nil =>
    simp [claim_loop, hs, hW, loop_payable]
  | cons p rest ih =>
    have hp := hpre p (List.mem_cons_self _ _)
    have hrest : ∀ x ∈ rest, x.owner ≠ .Assigned owner :=
      fun x hx => hpre x (List.mem_cons_of_mem _ hx)
    cases hpo : p.owner with
    | Assigned addr =>
      have haddr : ¬ addr = owner := by
        intro he; exact hp (by rw [hpo, he])
      simp [claim_loop, hpo, haddr, ih hrest, Bind.bind, Except.bind]
    | Unassigned str =>
      simp [claim_loop, hpo, ih hrest, Bind.bind, Except.bind]

/-- Spec-side quantity: the plain sum of all shares' weights. -/
def slot_total_weight (slot : RecipientSlot) : Nat :=
  (slot.shares.map (·.weights)).sum

/-- Spec-side quantity: the supplied pooled amount plus the plain sum of all
shares' `claim_amount`s (the slot's lifetime total). -/
def slot_lifetime (stake_amount : Nat) (slot : RecipientSlot) : Nat :=
  stake_amount + (slot.shares.map (·.claim_amount)).sum

/-- Spec-side quantity: `floor(lifetime_total * weights / total_weight)`. -/
def slot_entitlement (stake_amount : Nat) (slot : RecipientSlot)
    (s : RecipientSlotShare) : Nat :=
  slot_lifetime stake_amount slot * s.weights / slot_total_weight slot

/-- Evaluation lemma for `claim_from_slot`: the first share assigned to the
owner receives its entitlement delta, any other slot is a no-op (shared by the
C2 and C8 developments). -/
theorem claim_from_slot_eval :
    (∀ (stake_amount : Nat) (slot : RecipientSlot) (owner : Pubkey)
        (pre post : List RecipientSlotShare) (s : RecipientSlotShare),
      slot.shares = pre ++ s :: post →
      (∀ x ∈ pre, x.owner ≠ .Assigned owner) →
      s.owner = .Assigned owner →
      0 < slot_total_weight slot →
      slot_total_weight slot < U16MOD →
      slot_lifetime stake_amount slot < U64MOD →
      slot_lifetime stake_amount slot * s.weights < U64MOD →
      s.claim_amount ≤ slot_entitlement stake_amount slot s →
      claim_from_slot stake_amount slot owner =
        .ok (slot_entitlement stake_amount slot s - s.claim_amount,
          { slot with shares := pre ++
            { s with claim_amount := s.claim_amount +
              (slot_entitlement stake_amount slot s - s.claim_amount) } :: post })) ∧
    (∀ (stake_amount : Nat) (slot : RecipientSlot) (owner : Pubkey),
      (∀ x ∈ slot.shares, x.owner ≠ .Assigned owner) →
      claim_from_slot stake_amount slot owner = .ok (0, slot)) := by
  constructor
  · intro stake slot owner pre post s hshares hpre hs hW hW16 hL hLw hc
    have hcsum : (slot.shares.map (·.claim_amount)).sum ≤ slot_lifetime stake slot :=
      Nat.le_add_left _ _
    have h16 : sum16 (((pre ++ s :: post)).map (·.weights)) = slot_total_weight slot := by
      rw [← hshares]; exact sum16_eq hW16
    have h64 : sum64 (((pre ++ s :: post)).map (·.claim_amount)) =
        (((pre ++ s :: post)).map (·.claim_amount)).sum := by
      rw [← hshares]; exact sum64_eq (lt_of_le_of_lt hcsum hL)
    have hT : wadd64 ((((pre ++ s :: post)).map (·.claim_amount)).sum) stake =
        slot_lifetime stake slot := by
      rw [← hshares, wadd64_eq (by unfold slot_lifetime at hL; omega)]
      unfold slot_lifetime; omega
    have hWne : slot_total_weight slot ≠ 0 := Nat.pos_iff_ne_zero.mp hW
    have hent_lt : slot_entitlement stake slot s < U64MOD :=
      lt_of_le_of_lt (Nat.div_le_self _ _) hLw
    have hpay : loop_payable (slot_lifetime stake slot) (slot_total_weight slot) s =
        slot_entitlement stake slot s - s.claim_amount := by
      unfold loop_payable slot_entitlement
      rw [wmul64_eq hLw]
      exact wsub64_eq hent_lt hc
    have hupd : wadd64 s.claim_amount (slot_entitlement stake slot s - s.claim_amount) =
        s.claim_amount + (slot_entitlement stake slot s - s.claim_amount) := by
      rw [wadd64_eq]; omega
    have hloop := claim_loop_found (slot_lifetime stake slot) (slot_total_weight slot)
      owner pre post s hpre hs hWne
    simp only [claim_from_slot, h16, h64, hT, hshares, hloop, hpay, hupd,
      Bind.bind, Except.bind]
  · intro stake slot owner hno
    simp only [claim_from_slot,
      claim_loop_no_match _ _ _ _ hno, Bind.bind, Except.bind]

/-- C2: with a share `Assigned` to the owner (the share the loop selects:
every share before it is not assigned to the owner), `claim_from_slot` returns
`payable = floor(lifetime_total * weights / total_weight) - claim_amount_withdrawn`
and increases that share's `claim_amount_withdrawn` by exactly `payable`,
leaving every other share unchanged; with no share assigned to the owner it
returns 0 and leaves every share unchanged.  The arithmetic side conditions
keep the wrapping `u64`/`u16` operations of the source below their moduli and
the computed payable non-negative. -/
theorem claim_from_slot_spec :
    (∀ (stake_amount : Nat) (slot : RecipientSlot) (owner : Pubkey)
        (pre post : List RecipientSlotShare) (s : RecipientSlotShare),
      slot.shares = pre ++ s :: post →
      (∀ x ∈ pre, x.owner ≠ .Assigned owner) →
      s.owner = .Assigned owner →
      0 < slot_total_weight slot →
      slot_total_weight slot < U16MOD →
      slot_lifetime stake_amount slot < U64MOD →
      slot_lifetime stake_amount slot * s.weights < U64MOD →
      s.claim_amount ≤ slot_entitlement stake_amount slot s →
      claim_from_slot stake_amount slot owner =
        .ok (slot_entitlement stake_amount slot s - s.claim_amount,
          { slot with shares := pre ++
            { s with claim_amount := s.claim_amount +
              (slot_entitlement stake_amount slot s - s.claim_amount) } :: post })) ∧
    (∀ (stake_amount : Nat) (slot : RecipientSlot) (owner : Pubkey),
      (∀ x ∈ slot.shares, x.owner ≠ .Assigned owner) →
      claim_from_slot stake_amount slot owner = .ok (0, slot)) :=
  claim_from_slot_eval

/-- A concrete recipient slot (the 1:2 weights scenario of the source's own
test). -/
def slotEx : RecipientSlot :=
  { id := 0, slot_type := .Token, token_addr := 5, stake_addr := 6,
    shares := [
      { owner := .Assigned 11, weights := 1, claim_amount := 0 },
      { owner := .Assigned 12, weights := 2, claim_amount := 0 }] }

/-- Witness for C2 at the source test's first step: with a pool of 150 and
weights 1:2, owner 11 is paid 50 and that share's withdrawn amount becomes 50. -/
theorem claim_from_slot_spec_witness :
    claim_from_slot 150 slotEx 11 =
      .ok (50, { slotEx with shares := [
        { owner := .Assigned 11, weights := 1, claim_amount := 50 },
        { owner := .Assigned 12, weights := 2, claim_amount := 0 }] }) := by
  have h := claim_from_slot_spec.1 150 slotEx 11 []
    [{ owner := .Assigned 12, weights := 2, claim_amount := 0 }]
    { owner := .Assigned 11, weights := 1, claim_amount := 0 }
    rfl (by simp) rfl (by decide) (by decide) (by decide) (by decide) (by decide)
  exact h.trans rfl

/-! ## The slot's life over deposits and claims (for the I2 invariant) -/

/-- Environment actions on one recipient slot: a deposit into the slot's
pooled account, or a claim invocation by some owner. -/
inductive SlotOp where
  | deposit (d : Nat)
  | claimBy (owner : Pubkey)

/-- Total amount ever deposited by a sequence of operations. -/
def totalDeposits (ops : List SlotOp) : Nat :=
  (ops.map (fun op => match op with | .deposit d => d | .claimBy _ => 0)).sum

/-- One step of the slot's life: a deposit raises the pooled amount; a claim
runs `claim_from_slot` on the current pooled amount and the payable leaves the
pool (the claim processor transfers it to the owner).  A panicking claim
aborts its transaction, leaving the persisted state unchanged. -/
def slot_step (st : RecipientSlot × Nat) (op : SlotOp) : RecipientSlot × Nat :=
  match op with
  | .deposit d => (st.1, st.2 + d)
  | .claimBy owner =>
    match claim_from_slot st.2 st.1 owner with
    | .ok (payable, slot') => (slot', st.2 - payable)
    | .error _ => st

/-- A sequence of slot operations, applied in order. -/
def slot_run (st : RecipientSlot × Nat) (ops : List SlotOp) : RecipientSlot × Nat :=
  ops.foldl slot_step st

/-- Splitting a list at the first element satisfying a decidable predicate. -/
theorem first_split {α : Type} (p : α → Prop) [DecidablePred p] (l : List α)
    (h : ∃ x ∈ l, p x) :
    ∃ pre x post, l = pre ++ x :: post ∧ p x ∧ ∀ y ∈ pre, ¬ p y := by
  induction l with
  | nil => simp at h
  | cons a t ih =>
    by_cases ha : p a
    · exact ⟨[], a, t, rfl, ha, by simp⟩
    · obtain ⟨x, hx, hpx⟩ := h
      rcases List.mem_cons.mp hx with rfl | hxt
      · exact absurd hpx ha
      · obtain ⟨pre, x, post, hsplit, hpx', hpre⟩ := ih ⟨x, hxt, hpx⟩
        refine ⟨a :: pre, x, post, by simp [hsplit], hpx', ?_⟩
        intro y hy
        rcases List.mem_cons.mp hy with rfl | hyp
        · exact ha
        · exact hpre y hyp

/-- Sum of the shares' withdrawals is bounded by the lifetime when each share
obeys its weighted entitlement. -/
theorem sum_claims_le (shares : List RecipientSlotShare) (L W : Nat)
    (h : ∀ sh ∈ shares, sh.claim_amount ≤ L * sh.weights / W) :
    (shares.map (·.claim_amount)).sum ≤ L * (shares.map (·.weights)).sum / W := by
  induction shares with
  | nil => simp
  | cons sh t ih =>
    have h1 : sh.claim_amount ≤ L * sh.weights / W := h sh (List.mem_cons_self _ _)
    have ih' := ih (fun x hx => h x (List.mem_cons_of_mem _ hx))
    calc (List.map (·.claim_amount) (sh :: t)).sum
        = sh.claim_amount + (t.map (·.claim_amount)).sum := by simp
      _ ≤ L * sh.weights / W + L * (t.map (·.weights)).sum / W := Nat.add_le_add h1 ih'
      _ ≤ (L * sh.weights + L * (t.map (·.weights)).sum) / W := Nat.add_div_le_add_div _ _ _
      _ = L * (sh.weights + (t.map (·.weights)).sum) / W := by rw [Nat.mul_add]
      _ = L * (List.map (·.weights) (sh :: t)).sum / W := by simp

/-- One claim against a slot whose shares all sit within their weighted
entitlement: the claim succeeds, the payable fits inside the current pool, the
lifetime is conserved, and the entitlement bounds still hold afterwards. -/
theorem claim_step_ok (slot : RecipientSlot) (pool W : Nat) (owner : Pubkey)
    (hWdef : slot_total_weight slot = W)
    (hInv : ∀ sh ∈ slot.shares, sh.claim_amount ≤ slot_lifetime pool slot * sh.weights / W)
    (hW : 0 < W) (hW16 : W < U16MOD)
    (hLW : slot_lifetime pool slot * W < U64MOD) :
    ∃ payable slot',
      claim_from_slot pool slot owner = .ok (payable, slot') ∧
      payable ≤ pool ∧
      slot_total_weight slot' = W ∧
      slot_lifetime (pool - payable) slot' = slot_lifetime pool slot ∧
      ∀ sh ∈ slot'.shares,
        sh.claim_amount ≤ slot_lifetime pool slot * sh.weights / W := by
  by_cases hex : ∃ x ∈ slot.shares, x.owner = .Assigned owner
  · obtain ⟨pre, x, post, hsplit, hx, hpre⟩ :=
      first_split (fun sh => sh.owner = .Assigned owner) slot.shares hex
    have hxmem : x ∈ slot.shares := by rw [hsplit]; simp
    have hL1 : slot_lifetime pool slot * 1 ≤ slot_lifetime pool slot * W :=
      Nat.mul_le_mul_left _ hW
    have hL : slot_lifetime pool slot < U64MOD :=
      lt_of_le_of_lt (by simpa using hL1) hLW
    have hxw : x.weights ≤ W := by
      rw [← hWdef]
      exact List.single_le_sum (fun b _ => Nat.zero_le b) _
        (List.mem_map_of_mem (·.weights) hxmem)
    have hLw : slot_lifetime pool slot * x.weights < U64MOD :=
      lt_of_le_of_lt (Nat.mul_le_mul_left _ hxw) hLW
    have hent : slot_entitlement pool slot x = slot_lifetime pool slot * x.weights / W := by
      rw [slot_entitlement, hWdef]
    have hc : x.claim_amount ≤ slot_entitlement pool slot x := by
      rw [hent]; exact hInv x hxmem
    have heq := claim_from_slot_eval.1 pool slot owner pre post x hsplit hpre hx
      (hWdef ▸ hW) (hWdef ▸ hW16) hL hLw hc
    have hptw : ∀ sh ∈ pre ++
        ({ x with claim_amount := x.claim_amount +
          (slot_entitlement pool slot x - x.claim_amount) } : RecipientSlotShare) :: post,
        sh.claim_amount ≤ slot_lifetime pool slot * sh.weights / W := by
      intro sh hsh
      rcases List.mem_append.mp hsh with hp | hp
      · exact hInv sh (by rw [hsplit]; exact List.mem_append_left _ hp)
      · rcases List.mem_cons.mp hp with rfl | hp
        · show x.claim_amount + (slot_entitlement pool slot x - x.claim_amount) ≤
            slot_lifetime pool slot * x.weights / W
          rw [← hent]; omega
        · exact hInv sh (by rw [hsplit]
                            exact List.mem_append_right _ (List.mem_cons_of_mem _ hp))
    have hwsame : (List.map (·.weights) (pre ++
        ({ x with claim_amount := x.claim_amount +
          (slot_entitlement pool slot x - x.claim_amount) } : RecipientSlotShare) :: post)).sum
        = W := by
      rw [← hWdef, slot_total_weight, hsplit]; simp
    have hsum := sum_claims_le _ (slot_lifetime pool slot) W hptw
    rw [hwsame, Nat.mul_div_cancel _ hW] at hsum
    simp only [List.map_append, List.map_cons, List.sum_append, List.sum_cons] at hsum
    have hcsplit : (List.map (·.claim_amount) slot.shares).sum =
        (pre.map (·.claim_amount)).sum +
          (x.claim_amount + (post.map (·.claim_amount)).sum) := by
      rw [hsplit]; simp
    have hLsplit : slot_lifetime pool slot = pool + ((pre.map (·.claim_amount)).sum +
        (x.claim_amount + (post.map (·.claim_amount)).sum)) := by
      rw [slot_lifetime, hcsplit]
    have hpay_le : slot_entitlement pool slot x - x.claim_amount ≤ pool := by omega
    refine ⟨slot_entitlement pool slot x - x.claim_amount,
      { slot with shares := pre ++
        { x with claim_amount := x.claim_amount +
          (slot_entitlement pool slot x - x.claim_amount) } :: post },
      heq, hpay_le, ?_, ?_, hptw⟩
    · rw [slot_total_weight]
      exact hwsame
    · simp only [slot_lifetime, List.map_append, List.map_cons, List.sum_append,
        List.sum_cons]
      omega
  · push_neg at hex
    have heq := claim_from_slot_eval.2 pool slot owner hex
    exact ⟨0, slot, heq, Nat.zero_le _, hWdef, by simp [slot_lifetime], hInv⟩

/-- Along any run of deposits and claims the weight total, the per-share
entitlement bounds, and the lifetime accounting are all preserved. -/
theorem slot_run_inv (W : Nat) (hW : 0 < W) (hW16 : W < U16MOD) :
    ∀ (ops : List SlotOp) (st : RecipientSlot × Nat),
      slot_total_weight st.1 = W →
      (∀ sh ∈ st.1.shares,
        sh.claim_amount ≤ slot_lifetime st.2 st.1 * sh.weights / W) →
      (slot_lifetime st.2 st.1 + totalDeposits ops) * W < U64MOD →
      slot_total_weight (slot_run st ops).1 = W ∧
      (∀ sh ∈ (slot_run st ops).1.shares, sh.claim_amount ≤
        slot_lifetime (slot_run st ops).2 (slot_run st ops).1 * sh.weights / W) ∧
      slot_lifetime (slot_run st ops).2 (slot_run st ops).1 =
        slot_lifetime st.2 st.1 + totalDeposits ops := by
  intro ops
  induction ops with
  | nil =>
    intro st h1 h2 _
    exact ⟨h1, h2, by simp [slot_run, totalDeposits]⟩
  | cons op rest ih =>
    intro st h1 h2 hbound
    have hrun : slot_run st (op :: rest) = slot_run (slot_step st op) rest := rfl
    cases op with
    | deposit d =>
      have hT : totalDeposits (SlotOp.deposit d :: rest) = d + totalDeposits rest := by
        simp [totalDeposits]
      have hstep : slot_step st (.deposit d) = (st.1, st.2 + d) := rfl
      have hlife : slot_lifetime (st.2 + d) st.1 = slot_lifetime st.2 st.1 + d := by
        simp [slot_lifetime]; omega
      have h2' : ∀ sh ∈ st.1.shares,
          sh.claim_amount ≤ slot_lifetime (st.2 + d) st.1 * sh.weights / W := by
        intro sh hsh
        refine le_trans (h2 sh hsh) ?_
        exact Nat.div_le_div_right (Nat.mul_le_mul_right _ (by rw [hlife]; omega))
      have hbound' : (slot_lifetime (st.2 + d) st.1 + totalDeposits rest) * W < U64MOD := by
        rw [hT] at hbound
        rw [hlife, Nat.add_assoc]
        exact hbound
      obtain ⟨g1, g2, g3⟩ := ih (st.1, st.2 + d) h1 h2' hbound'
      rw [hrun, hstep]
      refine ⟨g1, g2, ?_⟩
      rw [g3, hlife, hT]
      omega
    | claimBy owner =>
      have hT : totalDeposits (SlotOp.claimBy owner :: rest) = totalDeposits rest := by
        simp [totalDeposits]
      have hLW : slot_lifetime st.2 st.1 * W < U64MOD := by
        refine lt_of_le_of_lt (Nat.mul_le_mul_right _ ?_) hbound
        omega
      obtain ⟨payable, slot', heq, hple, hW', hlife', hinv'⟩ :=
        claim_step_ok st.1 st.2 W owner h1 h2 hW hW16 hLW
      have hstep : slot_step st (.claimBy owner) = (slot', st.2 - payable) := by
        simp [slot_step, heq]
      have hinv'' : ∀ sh ∈ slot'.shares, sh.claim_amount ≤
          slot_lifetime (st.2 - payable) slot' * sh.weights / W := by
        rw [hlife']; exact hinv'
      have hbound' : (slot_lifetime (st.2 - payable) slot' + totalDeposits rest) * W
          < U64MOD := by
        rw [hlife', ← hT]; exact hbound
      obtain ⟨g1, g2, g3⟩ := ih (slot', st.2 - payable) hW' hinv'' hbound'
      rw [hrun, hstep]
      exact ⟨g1, g2, by rw [g3, hlife', hT]⟩

/-- C8: for a slot with fixed shares and weights, starting from all
`claim_amount` zero, after any sequence of claims interleaved with deposits
the total withdrawn never exceeds the total ever deposited.  Side conditions:
the weight total is positive and fits `u16`, and the deposits are small enough
that the source's wrapping `u64` arithmetic never wraps. -/
theorem slot_claims_bounded (slot0 : RecipientSlot) (ops : List SlotOp)
    (hzero : ∀ sh ∈ slot0.shares, sh.claim_amount = 0)
    (hW : 0 < slot_total_weight slot0)
    (hW16 : slot_total_weight slot0 < U16MOD)
    (hbound : totalDeposits ops * slot_total_weight slot0 < U64MOD) :
    ((slot_run (slot0, 0) ops).1.shares.map (·.claim_amount)).sum ≤
      totalDeposits ops := by
  have hzl : slot_lifetime 0 slot0 = 0 := by
    simp only [slot_lifetime, Nat.zero_add]
    refine List.sum_eq_zero ?_
    intro x hx
    obtain ⟨sh, hsh, rfl⟩ := List.mem_map.mp hx
    exact hzero sh hsh
  have h2 : ∀ sh ∈ slot0.shares,
      sh.claim_amount ≤ slot_lifetime 0 slot0 * sh.weights / slot_total_weight slot0 := by
    intro sh hsh
    rw [hzero sh hsh]
    exact Nat.zero_le _
  have hbound' : (slot_lifetime 0 slot0 + totalDeposits ops) * slot_total_weight slot0
      < U64MOD := by
    rw [hzl, Nat.zero_add]; exact hbound
  obtain ⟨_, _, g3⟩ := slot_run_inv (slot_total_weight slot0) hW hW16 ops
    (slot0, 0) rfl h2 hbound'
  rw [hzl, Nat.zero_add] at g3
  calc ((slot_run (slot0, 0) ops).1.shares.map (·.claim_amount)).sum
      ≤ slot_lifetime (slot_run (slot0, 0) ops).2 (slot_run (slot0, 0) ops).1 :=
        Nat.le_add_left _ _
    _ = totalDeposits ops := g3

/-- Witness for C8: the source test's slot, one deposit of 150 then a claim by
owner 11; the withdrawn total stays within the 150 deposited. -/
theorem slot_claims_bounded_witness :
    ((slot_run (slotEx, 0) [SlotOp.deposit 150, SlotOp.claimBy 11]).1.shares.map
      (·.claim_amount)).sum ≤ totalDeposits [SlotOp.deposit 150, SlotOp.claimBy 11] :=
  slot_claims_bounded slotEx _ (by decide) (by decide) (by decide) (by decide)

/-! ## Registry lookup and bitmap claims -/

theorem listSlice_some {data : List Nat} {start len : Nat}
    (h : start + len ≤ data.length) :
    listSlice data start len = some ((data.drop start).take len) := by
  simp [listSlice, h]

theorem listSlice_bound {data bs : List Nat} {start len : Nat}
    (h : listSlice data start len = some bs) :
    start + len ≤ data.length ∧ bs = (data.drop start).take len := by
  unfold listSlice at h
  split at h
  · exact ⟨by assumption, (Option.some.inj h).symm⟩
  · cases h

/-- The id bytes (`ID_OFFSET`..`ID_OFFSET+ID_LEN`) of registry slot `i`. -/
def slot_id_bytes (data : List Nat) (i : Nat) : Option (List Nat) :=
  listSlice data (HEAD_LEN + PLAYER_INFO_LEN * i + ID_OFFSET) ID_LEN

theorem leBytes_eight_zero : leBytes 8 0 = List.replicate ID_LEN 0 := rfl

/-- The scan reaches the first slot whose id bytes are all zero when searching
for id 0. -/
theorem gpid_loop_reaches (data : List Nat) (j : Nat)
    (hj : HEAD_LEN + PLAYER_INFO_LEN * j < data.length)
    (hjz : slot_id_bytes data j = some (List.replicate ID_LEN 0)) :
    ∀ d i, i + d = j →
      (∀ k, i ≤ k → k < j → slot_id_bytes data k ≠ some (List.replicate ID_LEN 0)) →
      get_player_by_id_from data (List.replicate ID_LEN 0) i =
        .ok (some (j,
          decode_player ((data.drop (HEAD_LEN + PLAYER_INFO_LEN * j)).take
            PLAYER_INFO_WITHOUT_KEY_LEN))) := by
  have hb := (listSlice_bound hjz).1
  have hIDo : ID_OFFSET = 34 := rfl
  have hIDl : ID_LEN = 8 := rfl
  have hPW : PLAYER_INFO_WITHOUT_KEY_LEN = 42 := rfl
  have hPI : PLAYER_INFO_LEN = 170 := rfl
  intro d
  induction d with
  | zero =>
    intro i hi _
    have hij : i = j := by omega
    subst hij
    unfold slot_id_bytes at hjz
    have h42 : HEAD_LEN + PLAYER_INFO_LEN * i + PLAYER_INFO_WITHOUT_KEY_LEN ≤
        data.length := by omega
    rw [get_player_by_id_from, dif_pos hj]
    simp only [hjz, listSlice_some h42, if_pos]
  | succ n ihn =>
    intro i hi hmin
    have hlt : i < j := by omega
    have hmulstep : PLAYER_INFO_LEN * (i + 1) = PLAYER_INFO_LEN * i + PLAYER_INFO_LEN := by
      ring
    have hmono : PLAYER_INFO_LEN * (i + 1) ≤ PLAYER_INFO_LEN * j :=
      Nat.mul_le_mul_left _ (by omega)
    have hcond : HEAD_LEN + PLAYER_INFO_LEN * i < data.length := by omega
    have hslice : HEAD_LEN + PLAYER_INFO_LEN * i + ID_OFFSET + ID_LEN ≤ data.length := by
      omega
    have hsl := listSlice_some hslice
    have hne : (data.drop (HEAD_LEN + PLAYER_INFO_LEN * i + ID_OFFSET)).take ID_LEN ≠
        List.replicate ID_LEN 0 := by
      intro he
      exact hmin i (le_refl _) hlt (by unfold slot_id_bytes; rw [hsl, he])
    rw [get_player_by_id_from, dif_pos hcond]
    simp only [hsl]
    rw [if_neg (fun he => hne he.symm)]
    exact ihn (i + 1) (by omega) (fun k hk1 hk2 => hmin k (by omega) hk2)

/-- C10: on a registry buffer containing a slot whose player-id bytes are all
zero (as every empty slot's are), `get_player_by_id` with id 0 returns `Some`
for the first such slot, not `None` — id 0 is not a safe no-player sentinel;
and in the settlement loop, a settle with `player_id = 0` never queues a
payout, because of the explicit `player_id != 0` guard. -/
theorem get_player_by_id_zero_matches_empty :
    (∀ (data : List Nat) (j : Nat),
      HEAD_LEN + PLAYER_INFO_LEN * j < data.length →
      slot_id_bytes data j = some (List.replicate ID_LEN 0) →
      (∀ k < j, slot_id_bytes data k ≠ some (List.replicate ID_LEN 0)) →
      ∃ e, get_player_by_id data 0 = .ok (some (j, e))) ∧
    (∀ (gs : GameState) (reg : List Nat) (pays : List (Pubkey × Nat)) (s : Settle)
        (out : GameState × List Nat × List (Pubkey × Nat)),
      s.player_id = 0 → settle_step gs reg pays s = .ok out → out.2.2 = pays) := by
  constructor
  · intro data j hj hjz hmin
    refine ⟨decode_player ((data.drop (HEAD_LEN + PLAYER_INFO_LEN * j)).take
      PLAYER_INFO_WITHOUT_KEY_LEN), ?_⟩
    unfold get_player_by_id
    rw [leBytes_eight_zero]
    exact gpid_loop_reaches data j hj hjz j 0 (by omega)
      (fun k hk1 hk2 => hmin k hk2)
  · intro gs reg pays s out hpid h
    simp only [settle_step] at h
    rw [bind_ok_iff] at h
    obtain ⟨bal, _, h⟩ := h
    rw [bind_ok_iff] at h
    obtain ⟨found, _, h⟩ := h
    cases found with
    | none =>
      have h' := Except.ok.inj h
      subst h'
      rfl
    | some ip =>
      simp only [hpid, ne_eq, not_true_eq_false, false_and, if_false] at h
      split at h
      · rw [bind_ok_iff] at h
        obtain ⟨reg', _, h⟩ := h
        have h' := Except.ok.inj h
        subst h'
        rfl
      · have h' := Except.ok.inj h
        subst h'
        rfl

/-- Witness for C10: a well-formed buffer with one empty slot after the header;
`get_player_by_id` with id 0 reports that empty slot. -/
theorem get_player_by_id_zero_matches_empty_witness :
    ∃ e, get_player_by_id (List.replicate (HEAD_LEN + PLAYER_INFO_LEN) 0) 0 =
      .ok (some (0, e)) :=
  get_player_by_id_zero_matches_empty.1 (List.replicate (HEAD_LEN + PLAYER_INFO_LEN) 0) 0
    (by decide) (by decide) (fun k hk => absurd hk (Nat.not_lt_zero k))

/-- C9 counterexample: on an all-zero buffer long enough for the bitmap read,
position 1024 is reported unoccupied — the code's bound is `position > 1024`,
so 1024 itself falls through to the bitmap. -/
theorem is_position_occupied_1024_cex :
    is_position_occupied (List.replicate 161 0) 1024 = .ok false := by rfl

/-- C9 (amended): positions strictly greater than 1024 are treated as
always-occupied by `is_position_occupied`; position 1024 itself is looked up
in the bitmap. -/
theorem is_position_occupied_above_1024 (data : List Nat) (position : Nat)
    (hlen : ¬ data.length < HEAD_LEN) (hpos : position > 1024) :
    is_position_occupied data position = .ok true := by
  simp [is_position_occupied, hlen, hpos]

/-- Witness for the amended C9 on a header-sized buffer and position 1500. -/
theorem is_position_occupied_above_1024_witness :
    is_position_occupied (List.replicate HEAD_LEN 0) 1500 = .ok true :=
  is_position_occupied_above_1024 (List.replicate HEAD_LEN 0) 1500
    (by decide) (by decide)

/-! ## Concrete fixtures for the settlement claims -/

/-- A concrete choice of the external address derivations. -/
def envEx : Env :=
  { ata := fun a m => 1000000 + 1000 * a + m
    find_pda := fun k => (500000 + k, 254) }

/-- A freshly-settled game over the native mint: no balances, no deposits. -/
def gsBase : GameState :=
  { game_status := .Initialized, version := "1", title := "t", bundle_addr := 20,
    stake_account := 30, owner := 21, token_mint := NATIVE_MINT,
    transactor_addr := some 22, access_version := 5, settle_version := 2,
    max_players := 4, players_reg_account := 23, deposits := [], servers := [],
    data_len := 0, data := [], votes := [], unlock_time := none,
    entry_type := .Cash 1 9999, recipient_addr := 24, checkpoint := [],
    entry_lock := .Open, bonuses := [], balances := [] }

/-- An empty registry buffer: the header only, all zero. -/
def regEmpty : List Nat := List.replicate HEAD_LEN 0

/-- A registry buffer with one occupied slot: player address 7, position 3,
id (`access_version`) 1. -/
def regWithPlayer : List Nat :=
  List.replicate HEAD_LEN 0 ++
    (leBytes 32 7 ++ leBytes 2 3 ++ leBytes 8 1 ++ List.replicate 128 0)

theorem gpid_regEmpty (id : Nat) : get_player_by_id regEmpty id = .ok none := by
  unfold get_player_by_id
  rw [get_player_by_id_from, dif_neg (by decide)]

theorem gpid_regWithPlayer :
    get_player_by_id regWithPlayer 1 =
      .ok (some (0, { addr := 7, position := 3, access_version := 1 })) := by
  unfold get_player_by_id
  rw [get_player_by_id_from, dif_pos (by decide)]
  simp only [show listSlice regWithPlayer (HEAD_LEN + PLAYER_INFO_LEN * 0 + ID_OFFSET)
      ID_LEN = some (leBytes 8 1) from by decide,
    show listSlice regWithPlayer (HEAD_LEN + PLAYER_INFO_LEN * 0)
      PLAYER_INFO_WITHOUT_KEY_LEN =
      some ((regWithPlayer.drop HEAD_LEN).take PLAYER_INFO_WITHOUT_KEY_LEN) from by decide,
    if_pos]
  rfl

/-- A native-mint stake account holding nothing (matching `gsBase`'s empty
balances and deposits). -/
def stakeZero : AccountModel := { key := 30, lamports := 0, token := none }

/-- An empty recipient ledger. -/
def recipientEmpty : RecipientState :=
  { is_initialized := true, cap_addr := none, slots := [] }

/-- A trivial settle batch advancing version 2 to 3 (no settles, no transfer,
no awards). -/
def paramsBase : SettleParams :=
  { settles := [], transfer := none, awards := [], checkpoint := [1, 2],
    access_version := 5, settle_version := 2, next_settle_version := 3,
    entry_lock := none, accept_deposits := [] }

/-- Accounts for a settle invocation against `gsBase` with the empty registry. -/
def acctsBase : SettleAccounts :=
  { transactor_key := 22, transactor_is_signer := true, game_key := 25,
    game_state := gsBase, reg := regEmpty, stake := stakeZero,
    pda_key := (envEx.find_pda 25).1, recipient_state := recipientEmpty,
    rest := [] }

/-! ## C1 and C3: conservation and version guards of `settle_process` -/

theorem validate_balance_ok {gs : GameState} {stake : AccountModel} {u : Unit}
    (h : validate_balance gs stake = .ok u) :
    observed_stake gs stake =
      .ok (wadd64 (sum64 (gs.balances.map (·.balance)))
        (sum64 ((gs.deposits.filter deposit_unresolved).map (·.amount)))) := by
  unfold validate_balance at h
  rw [bind_ok_iff] at h
  obtain ⟨amt, hobs, h⟩ := h
  by_cases he : amt = wadd64 (sum64 (gs.balances.map (·.balance)))
      (sum64 ((gs.deposits.filter deposit_unresolved).map (·.amount)))
  · rw [← he]; exact hobs
  · rw [if_pos he] at h
    cases h

theorem validate_balance_err {gs : GameState} {stake : AccountModel} {amt : Nat}
    (hobs : observed_stake gs stake = .ok amt)
    (hne : amt ≠ wadd64 (sum64 (gs.balances.map (·.balance)))
      (sum64 ((gs.deposits.filter deposit_unresolved).map (·.amount)))) :
    validate_balance gs stake = .error (.Process .UnbalancedGameStake) := by
  unfold validate_balance
  rw [hobs]
  simp only [Bind.bind, Except.bind]
  rw [if_pos hne]

/-- C3: a settle invocation whose supplied `settle_version` differs from the
ledger's current one fails with `InvalidSettleVersion`; one whose
`next_settle_version` is not strictly greater fails with
`InvalidNextSettleVersion`.  In the model an error result carries no
`SettleResult`: the ledger, registry buffer and balances are unmodified. -/
theorem settle_version_guard :
    (∀ (env : Env) (a : SettleAccounts) (params : SettleParams),
      a.transactor_is_signer = true →
      a.game_state.settle_version ≠ params.settle_version →
      settle_process env a params = .error (.Process .InvalidSettleVersion)) ∧
    (∀ (env : Env) (a : SettleAccounts) (params : SettleParams),
      a.transactor_is_signer = true →
      a.game_state.settle_version = params.settle_version →
      params.next_settle_version ≤ a.game_state.settle_version →
      settle_process env a params = .error (.Process .InvalidNextSettleVersion)) := by
  constructor
  · intro env a params hs hv
    simp [settle_process, hs, hv]
  · intro env a params hs hv hn
    rw [hv] at hn
    simp [settle_process, hs, hv, hn]

/-- Witness for C3: a stale `settle_version` (7 against the ledger's 2) is
rejected with `InvalidSettleVersion`. -/
theorem settle_version_guard_witness :
    settle_process envEx acctsBase { paramsBase with settle_version := 7 } =
      .error (.Process .InvalidSettleVersion) :=
  settle_version_guard.1 envEx acctsBase { paramsBase with settle_version := 7 }
    rfl (by decide)

/-- C1: when `settle_process` succeeds, the pooled stake amount observed on
the committed state equals the sum of all balances plus the sum of unresolved
(`Pending`/`Rejected`) deposit amounts (the bound keeps the source's wrapping
sums exact); and when every earlier phase succeeds but the stake amount
observed at the validation step differs from that sum, the invocation fails
with `UnbalancedGameStake`, committing nothing. -/
theorem observed_stake_congr {gs gs' : GameState} {stake : AccountModel}
    (h : gs.token_mint = gs'.token_mint) :
    observed_stake gs stake = observed_stake gs' stake := by
  unfold observed_stake; rw [h]

/-- A successful commit pins the committed fields and the conservation check. -/
theorem settle_commit_fields {gs : GameState} {reg : List Nat}
    {stake : AccountModel} {params : SettleParams} {r : SettleResult}
    (h : settle_commit gs reg stake params = .ok r) :
    r.stake = stake ∧ r.game_state.balances = gs.balances ∧
    r.game_state.deposits = accept_and_retain gs.deposits params.accept_deposits ∧
    r.game_state.token_mint = gs.token_mint ∧
    validate_balance
      { gs with deposits := accept_and_retain gs.deposits params.accept_deposits }
      stake = .ok () := by
  unfold settle_commit at h
  rw [bind_ok_iff] at h
  obtain ⟨u, hval, h⟩ := h
  rw [bind_ok_iff] at h
  obtain ⟨reg2, hsv, h⟩ := h
  have hr := Except.ok.inj h
  subst hr
  cases u
  exact ⟨rfl, rfl, rfl, rfl, hval⟩

theorem settle_conservation :
    (∀ (env : Env) (a : SettleAccounts) (params : SettleParams) (r : SettleResult),
      settle_process env a params = .ok r →
      (r.game_state.balances.map (·.balance)).sum +
        ((r.game_state.deposits.filter deposit_unresolved).map (·.amount)).sum
        < U64MOD →
      observed_stake r.game_state r.stake =
        .ok ((r.game_state.balances.map (·.balance)).sum +
          ((r.game_state.deposits.filter deposit_unresolved).map (·.amount)).sum)) ∧
    (∀ (env : Env) (a : SettleAccounts) (params : SettleParams)
        (gs1 : GameState) (reg1 : List Nat) (stake1 : AccountModel)
        (iter1 : List AccountModel) (stake2 : AccountModel)
        (iter2 iter3 : List AccountModel) (amt : Nat),
      a.transactor_is_signer = true →
      a.game_state.settle_version = params.settle_version →
      a.game_state.settle_version < params.next_settle_version →
      a.stake.key = a.game_state.stake_account →
      (env.find_pda a.game_key).1 = a.pda_key →
      handle_settles env a.game_state a.reg a.stake a.rest params.settles =
        .ok (gs1, reg1, stake1, iter1) →
      maybe_handle_transfer env gs1 params.transfer a.recipient_state stake1 iter1 =
        .ok (stake2, iter2) →
      handle_bonuses env gs1 reg1 params.awards iter2 = .ok iter3 →
      observed_stake
        { gs1 with deposits := accept_and_retain gs1.deposits params.accept_deposits }
        stake2 = .ok amt →
      amt ≠ wadd64 (sum64 (gs1.balances.map (·.balance)))
        (sum64 (((accept_and_retain gs1.deposits params.accept_deposits).filter
          deposit_unresolved).map (·.amount))) →
      settle_process env a params = .error (.Process .UnbalancedGameStake)) := by
  constructor
  · intro env a params r hok hsum
    simp only [settle_process] at hok
    split at hok
    · simp at hok
    split at hok
    · simp at hok
    split at hok
    · simp at hok
    split at hok
    · simp at hok
    split at hok
    · simp at hok
    rw [bind_ok_iff] at hok
    obtain ⟨⟨gs1, reg1, stake1, iter1⟩, hst, hok⟩ := hok
    rw [bind_ok_iff] at hok
    obtain ⟨⟨stake2, iter2⟩, htr, hok⟩ := hok
    rw [bind_ok_iff] at hok
    obtain ⟨iter3, hbon, hok⟩ := hok
    have hok' : settle_commit gs1 reg1 stake2 params = .ok r := hok
    obtain ⟨hrst, hrbal, hrdep, hrtm, hval⟩ := settle_commit_fields hok'
    have hobs := validate_balance_ok hval
    rw [hrbal, hrdep] at hsum
    rw [hrbal, hrdep, hrst,
      @observed_stake_congr r.game_state
        { gs1 with deposits := accept_and_retain gs1.deposits params.accept_deposits }
        stake2 hrtm,
      hobs]
    have hB : sum64 (gs1.balances.map (·.balance)) =
        (gs1.balances.map (·.balance)).sum := sum64_eq (by omega)
    have hD : sum64 (((accept_and_retain gs1.deposits params.accept_deposits).filter
        deposit_unresolved).map (·.amount)) =
        (((accept_and_retain gs1.deposits params.accept_deposits).filter
          deposit_unresolved).map (·.amount)).sum := sum64_eq (by omega)
    have hBD := wadd64_eq (a := (gs1.balances.map (·.balance)).sum)
      (b := (((accept_and_retain gs1.deposits params.accept_deposits).filter
        deposit_unresolved).map (·.amount)).sum) hsum
    show (Except.ok (wadd64
      (sum64 ((({ gs1 with
        deposits := accept_and_retain gs1.deposits params.accept_deposits }
        : GameState).balances).map (·.balance)))
      (sum64 ((({ gs1 with
        deposits := accept_and_retain gs1.deposits params.accept_deposits }
        : GameState).deposits.filter deposit_unresolved).map (·.amount))))
      : Except SErr Nat) = _
    rw [show (({ gs1 with
        deposits := accept_and_retain gs1.deposits params.accept_deposits }
        : GameState).balances) = gs1.balances from rfl,
      show (({ gs1 with
        deposits := accept_and_retain gs1.deposits params.accept_deposits }
        : GameState).deposits) = accept_and_retain gs1.deposits params.accept_deposits
        from rfl, hB, hD, hBD]
  · intro env a params gs1 reg1 stake1 iter1 stake2 iter2 iter3 amt
      hs hv hlt hsk hpda hst htr hbon hobs hne
    have hval : validate_balance
        { gs1 with deposits := accept_and_retain gs1.deposits params.accept_deposits }
        stake2 = .error (.Process .UnbalancedGameStake) :=
      validate_balance_err hobs hne
    have hcommit : settle_commit gs1 reg1 stake2 params =
        .error (.Process .UnbalancedGameStake) := by
      unfold settle_commit
      rw [hval]
      simp [Bind.bind, Except.bind]
    simp only [settle_process]
    rw [if_neg (by simp [hs]), if_neg (by simp [hv]), if_neg (by omega),
      if_neg (by simp [hsk]), if_neg (by simp [hpda]), hst]
    simp only [Bind.bind, Except.bind]
    rw [htr]
    simp only []
    rw [hbon]
    simp only []
    exact hcommit

/-- Witness fixture for C1: the committed result of the trivial settle batch. -/
def settleR0 : SettleResult :=
  { game_state := { gsBase with
      deposits := []
      settle_version := 3
      checkpoint := [1, 2]
      entry_lock := .Open }
    reg := leBytes 8 5 ++ leBytes 8 3 ++ List.replicate 140 0
    stake := stakeZero }

/-- Witness for C1: the trivial settle batch commits, and the observed stake
equals the (empty) balance and deposit sums. -/
theorem settle_conservation_witness :
    observed_stake settleR0.game_state settleR0.stake =
      .ok ((settleR0.game_state.balances.map (·.balance)).sum +
        ((settleR0.game_state.deposits.filter deposit_unresolved).map (·.amount)).sum) :=
  settle_conservation.1 envEx acctsBase paramsBase settleR0 (by rfl) (by decide)

/-! ## C4 and C5: the per-entry behaviour of the settles loop -/

/-- Shared step lemma: a settle whose `player_id` is not in the registry only
applies its balance change — no payout is queued, the registry is untouched,
and no error is raised. -/
theorem settle_step_not_found {gs : GameState} {reg : List Nat}
    {pays : List (Pubkey × Nat)} {s : Settle} {bal : List PlayerBalance}
    (hchg : apply_change_to_balances gs.balances s.player_id s.change = .ok bal)
    (hnone : get_player_by_id reg s.player_id = .ok none) :
    settle_step gs reg pays s =
      .ok ({ gs with balances := bal.filter (fun b => b.balance > 0) }, reg, pays) := by
  unfold settle_step
  rw [hchg]
  simp only [Bind.bind, Except.bind]
  rw [hnone]

/-- Shared step lemma: a non-eject settle whose player is registered queues a
payout exactly when `player_id ≠ 0` and `amount > 0`, and leaves the registry
untouched. -/
theorem settle_step_found_noeject {gs : GameState} {reg : List Nat}
    {pays : List (Pubkey × Nat)} {s : Settle} {bal : List PlayerBalance}
    {idx : Nat} {p : PlayerJoinWithoutKey}
    (hchg : apply_change_to_balances gs.balances s.player_id s.change = .ok bal)
    (hfound : get_player_by_id reg s.player_id = .ok (some (idx, p)))
    (he : s.eject = false) :
    settle_step gs reg pays s =
      .ok ({ gs with balances := bal.filter (fun b => b.balance > 0) }, reg,
        if s.player_id ≠ 0 ∧ s.amount > 0 then pays ++ [(p.addr, s.amount)] else pays) := by
  unfold settle_step
  rw [hchg]
  simp only [Bind.bind, Except.bind]
  rw [hfound]
  simp only [he, Bool.false_eq_true, if_false]

/-- Shared step lemma: an eject settle whose player is registered queues the
same payout and removes the registry entry. -/
theorem settle_step_found_eject {gs : GameState} {reg reg' : List Nat}
    {pays : List (Pubkey × Nat)} {s : Settle} {bal : List PlayerBalance}
    {idx : Nat} {p : PlayerJoinWithoutKey}
    (hchg : apply_change_to_balances gs.balances s.player_id s.change = .ok bal)
    (hfound : get_player_by_id reg s.player_id = .ok (some (idx, p)))
    (he : s.eject = true)
    (hrm : remove_player_by_index reg idx = .ok reg') :
    settle_step gs reg pays s =
      .ok ({ gs with balances := bal.filter (fun b => b.balance > 0) }, reg',
        if s.player_id ≠ 0 ∧ s.amount > 0 then pays ++ [(p.addr, s.amount)] else pays) := by
  unfold settle_step
  rw [hchg]
  simp only [Bind.bind, Except.bind]
  rw [hfound]
  simp only [he, if_true]
  rw [hrm]

/-- C4 counterexample: a settle entry with `eject := false`, `amount := 5` and
a registered player pays the player anyway — the stake account drops from 10
to 5 lamports.  The claim's "an entry with eject unset never causes a payout
transfer" is false. -/
theorem settle_payout_noeject_cex :
    handle_settles envEx gsBase regWithPlayer
      { key := 30, lamports := 10, token := none }
      [{ key := 7, lamports := 0, token := none }]
      [{ player_id := 1, amount := 5, change := none, eject := false }] =
      .ok (gsBase, regWithPlayer, { key := 30, lamports := 5, token := none }, []) := by
  have hstep : settle_step gsBase regWithPlayer []
      { player_id := 1, amount := 5, change := none, eject := false } =
      .ok (gsBase, regWithPlayer, [(7, 5)]) := by
    have h := @settle_step_found_noeject gsBase regWithPlayer []
      { player_id := 1, amount := 5, change := none, eject := false }
      [] 0 { addr := 7, position := 3, access_version := 1 }
      rfl gpid_regWithPlayer rfl
    exact h.trans (by rfl)
  unfold handle_settles
  rw [show [({ player_id := 1, amount := 5, change := none, eject := false } : Settle)].foldlM
      (fun (acc : GameState × List Nat × List (Pubkey × Nat)) s =>
        settle_step acc.1 acc.2.1 acc.2.2 s) (gsBase, regWithPlayer, []) =
      settle_step gsBase regWithPlayer []
        { player_id := 1, amount := 5, change := none, eject := false } >>=
        (fun acc => [].foldlM
          (fun (acc : GameState × List Nat × List (Pubkey × Nat)) s =>
            settle_step acc.1 acc.2.1 acc.2.2 s) acc) from rfl]
  rw [hstep]
  simp only [Bind.bind, Except.bind, List.foldlM_nil]
  rfl

/-- C4 (amended): in the settles loop, a payout `(player_address, amount)` is
queued exactly when the player is present in the registry and
`player_id ≠ 0 ∧ amount > 0` — independently of `eject`; `eject` only governs
removal of the registry entry. -/
theorem settle_payout_rule :
    (∀ (gs : GameState) (reg : List Nat) (pays : List (Pubkey × Nat)) (s : Settle)
        (bal : List PlayerBalance) (idx : Nat) (p : PlayerJoinWithoutKey),
      apply_change_to_balances gs.balances s.player_id s.change = .ok bal →
      get_player_by_id reg s.player_id = .ok (some (idx, p)) →
      s.eject = false →
      settle_step gs reg pays s =
        .ok ({ gs with balances := bal.filter (fun b => b.balance > 0) }, reg,
          if s.player_id ≠ 0 ∧ s.amount > 0 then pays ++ [(p.addr, s.amount)]
          else pays)) ∧
    (∀ (gs : GameState) (reg reg' : List Nat) (pays : List (Pubkey × Nat)) (s : Settle)
        (bal : List PlayerBalance) (idx : Nat) (p : PlayerJoinWithoutKey),
      apply_change_to_balances gs.balances s.player_id s.change = .ok bal →
      get_player_by_id reg s.player_id = .ok (some (idx, p)) →
      s.eject = true →
      remove_player_by_index reg idx = .ok reg' →
      settle_step gs reg pays s =
        .ok ({ gs with balances := bal.filter (fun b => b.balance > 0) }, reg',
          if s.player_id ≠ 0 ∧ s.amount > 0 then pays ++ [(p.addr, s.amount)]
          else pays)) :=
  ⟨fun _ _ _ _ _ _ _ hchg hfound he =>
      settle_step_found_noeject hchg hfound he,
    fun _ _ _ _ _ _ _ _ hchg hfound he hrm =>
      settle_step_found_eject hchg hfound he hrm⟩

/-- Witness for the amended C4: the concrete non-eject settle queues the
payout `(7, 5)`. -/
theorem settle_payout_rule_witness :
    settle_step gsBase regWithPlayer []
      { player_id := 1, amount := 5, change := none, eject := false } =
      .ok ({ gsBase with balances := [] }, regWithPlayer,
        if (1 : Nat) ≠ 0 ∧ (5 : Nat) > 0 then [] ++ [((7 : Pubkey), (5 : Nat))] else []) :=
  settle_payout_rule.1 gsBase regWithPlayer []
    { player_id := 1, amount := 5, change := none, eject := false }
    [] 0 { addr := 7, position := 3, access_version := 1 } rfl gpid_regWithPlayer rfl

/-- C5 (amended): an eject settle whose `player_id` is absent from the
registry is silently skipped — the balance change still applies, no payout is
queued, the registry is untouched, and no error is raised. -/
theorem settle_missing_player_skipped :
    ∀ (gs : GameState) (reg : List Nat) (pays : List (Pubkey × Nat)) (s : Settle)
      (bal : List PlayerBalance),
      s.eject = true →
      apply_change_to_balances gs.balances s.player_id s.change = .ok bal →
      get_player_by_id reg s.player_id = .ok none →
      settle_step gs reg pays s =
        .ok ({ gs with balances := bal.filter (fun b => b.balance > 0) }, reg, pays) :=
  fun _ _ _ _ _ _ hchg hnone => settle_step_not_found hchg hnone

/-- Witness for the amended C5: ejecting absent player 9 on the empty registry
is a silent no-op. -/
theorem settle_missing_player_skipped_witness :
    settle_step gsBase regEmpty []
      { player_id := 9, amount := 0, change := none, eject := true } =
      .ok ({ gsBase with balances := [] }, regEmpty, []) :=
  settle_missing_player_skipped gsBase regEmpty []
    { player_id := 9, amount := 0, change := none, eject := true } [] rfl rfl
    (gpid_regEmpty 9)

/-- C5 counterexample: a whole settle invocation whose only settle is an eject
of the absent player 9 succeeds — no structural error is raised, contradicting
the claim that such an invocation fails before any transfer. -/
theorem settle_missing_player_cex :
    settle_process envEx acctsBase
      { paramsBase with
        settles := [{ player_id := 9, amount := 0, change := none, eject := true }] } =
      .ok settleR0 := by
  have hstep : settle_step gsBase regEmpty []
      { player_id := 9, amount := 0, change := none, eject := true } =
      .ok (gsBase, regEmpty, []) := by
    have h := @settle_step_not_found gsBase regEmpty []
      { player_id := 9, amount := 0, change := none, eject := true }
      [] rfl (gpid_regEmpty 9)
    exact h.trans (by rfl)
  have hsettles : handle_settles envEx gsBase regEmpty stakeZero []
      [{ player_id := 9, amount := 0, change := none, eject := true }] =
      .ok (gsBase, regEmpty, stakeZero, []) := by
    unfold handle_settles
    rw [show [({ player_id := 9, amount := 0, change := none, eject := true } : Settle)].foldlM
        (fun (acc : GameState × List Nat × List (Pubkey × Nat)) s =>
          settle_step acc.1 acc.2.1 acc.2.2 s) (gsBase, regEmpty, []) =
        settle_step gsBase regEmpty []
          { player_id := 9, amount := 0, change := none, eject := true } >>=
          (fun acc => [].foldlM
            (fun (acc : GameState × List Nat × List (Pubkey × Nat)) s =>
              settle_step acc.1 acc.2.1 acc.2.2 s) acc) from rfl]
    rw [hstep]
    simp only [Bind.bind, Except.bind, List.foldlM_nil]
    rfl
  simp only [settle_process]
  rw [if_neg (by decide), if_neg (by decide), if_neg (by decide),
    if_neg (by decide), if_neg (by decide)]
  rw [show acctsBase.game_state = gsBase from rfl, show acctsBase.reg = regEmpty from rfl,
    show acctsBase.stake = stakeZero from rfl, show acctsBase.rest = ([] : List AccountModel) from rfl]
  rw [hsettles]
  simp only [Bind.bind, Except.bind]
  rfl

/-! ## C6 and C7: the bonus-drain and receiver-validation bugs -/

/-- C7: `validate_receiver`'s native-mint branch logs the mismatch but returns
`Ok(())` — a receiver (8) that is not the owner (7) passes validation for the
native mint, so validation is not "error for every non-canonical candidate".
(The SPL branch does reject non-ATA receivers.) -/
theorem validate_receiver_native_accepts_any :
    (7 : Pubkey) ≠ 8 ∧ validate_receiver envEx 7 NATIVE_MINT 8 = .ok () :=
  ⟨by decide, rfl⟩

/-- C6: at a bonus award where the bonus token account holds 100 and the
player's receiving account holds 0, `transfer_spl` (which unpacks the
destination account into its `source_state`) transfers 0 — the receiver's
balance, not the bonus's — leaving the bonus account at 100, and the
subsequent `close_account` fails on the non-empty account.  The full drain the
claim describes never happens. -/
theorem bonus_award_wrong_drain :
    transfer_spl { key := 40, lamports := 2, token := some { mint := 9, amount := 100 } }
      { key := 1007009, lamports := 0, token := some { mint := 9, amount := 0 } } none =
      .ok ({ key := 40, lamports := 2, token := some { mint := 9, amount := 100 } },
        { key := 1007009, lamports := 0, token := some { mint := 9, amount := 0 } }) ∧
    award_bonus_step envEx regWithPlayer
      { identifier := "b1", stake_addr := 40, token_addr := 9, amount := 100 } 1
      [{ key := 40, lamports := 2, token := some { mint := 9, amount := 100 } },
        { key := 1007009, lamports := 0, token := some { mint := 9, amount := 0 } }] =
      .error .SplCloseNonZero := by
  constructor
  · rfl
  · unfold award_bonus_step
    simp only [show next_account
        [({ key := 40, lamports := 2, token := some { mint := 9, amount := 100 } }
          : AccountModel),
          { key := 1007009, lamports := 0, token := some { mint := 9, amount := 0 } }] =
        .ok ({ key := 40, lamports := 2, token := some { mint := 9, amount := 100 } },
          [{ key := 1007009, lamports := 0, token := some { mint := 9, amount := 0 } }])
        from rfl,
      show next_account
        [({ key := 1007009, lamports := 0, token := some { mint := 9, amount := 0 } }
          : AccountModel)] =
        .ok ({ key := 1007009, lamports := 0, token := some { mint := 9, amount := 0 } },
          []) from rfl,
      Bind.bind, Except.bind]
    rw [if_neg (by decide)]
    rw [gpid_regWithPlayer]
    rfl

end Race
